import Mathlib

/-
Verification development for the MoviePilot slice consisting of
`app/modules/filter/__init__.py` (rule-based torrent filtering and
prioritization) and `app/scheduler.py` (job scheduler with exclusivity
guard, plugin job registration/removal, and live listing).

The Python code is shallowly embedded: dictionaries become association
lists that preserve insertion order, Python `None`-or-value results become
`Option`, raised exceptions become an outer `Option` layer (`none` means
the call raised), and Python truthiness is made explicit where the code
relies on it.
-/

namespace MoviePilot

/-! ## Python string helpers -/

/-- Python whitespace characters recognized by `str.strip`, `\s` and the
tokenizer (the ASCII set `[ \t\n\r\x0b\x0c]`). -/
def pywsp (c : Char) : Bool :=
  c = ' ' || c = '\t' || c = '\n' || c = '\r' || c = '\x0b' || c = '\x0c'

/-- `str.split(sep)` for a one-character separator: splits on every
occurrence, keeping empty pieces (so `"" ↦ [""]` and `"a>" ↦ ["a", ""]`),
exactly as Python does with an explicit separator. -/
def splitCharList (sep : Char) : List Char → List (List Char)
  | [] => [[]]
  | c :: rest =>
    match splitCharList sep rest with
    | [] => [[c]]
    | g :: gs => if c = sep then [] :: g :: gs else (c :: g) :: gs

/-- Python `str.strip()` restricted to the ASCII whitespace set. -/
def stripChars (l : List Char) : List Char :=
  ((l.dropWhile pywsp).reverse.dropWhile pywsp).reverse

/-- Truthiness of a Python value that is either a missing/None field or a
string: `None` and `""` are falsy, every other string is truthy. -/
def pyStrTruthy : Option String → Bool
  | none => false
  | some s => !(s == "")

/-! ## Regular expressions

The filter module calls `re.search(pattern, content, re.IGNORECASE)` on a
fixed table of pattern literals.  The pattern literals are embedded as
syntax trees below; the matcher implements unanchored, case-insensitive
(ASCII case folding) backtracking search with Python semantics for `.`
(any character except newline), `\s`, `$` (end of string, or just before
a final newline), `?` and `+`.  The matcher runs on fuel, computed as a
bound on the length of any backtracking path for patterns whose repeated
sub-patterns always consume input, which is the case for every pattern in
the rule table. -/

inductive Regex where
  | eps
  | ch (c : Char)
  | cls (cs : List Char)
  | wsp
  | dot
  | eol
  | seq (a b : Regex)
  | alt (a b : Regex)
  | plus (a : Regex)
  | opt (a : Regex)
deriving DecidableEq

/-- Case-insensitive character comparison (ASCII case folding, which is
what `re.IGNORECASE` does on the ASCII letters appearing in the rule
table; CJK characters have no case). -/
def cieq (a b : Char) : Bool := a.toLower == b.toLower

/-- Number of nodes of a pattern, used to compute the matcher fuel. -/
def rsize : Regex → Nat
  | .eps => 1
  | .ch _ => 1
  | .cls _ => 1
  | .wsp => 1
  | .dot => 1
  | .eol => 1
  | .seq a b => rsize a + rsize b + 1
  | .alt a b => rsize a + rsize b + 1
  | .plus a => rsize a + 1
  | .opt a => rsize a + 1

/-- Backtracking matcher in continuation-passing style.  `reMatch n r s k`
tries to match `r` against a prefix of `s` and calls `k` on every
possible remainder; fuel `n` bounds the length of a backtracking path. -/
def reMatch : Nat → Regex → List Char → (List Char → Bool) → Bool
  | 0, _, _, _ => false
  | n + 1, r, s, k =>
    match r with
    | .eps => k s
    | .ch c =>
      match s with
      | [] => false
      | d :: rest => cieq c d && k rest
    | .cls cs =>
      match s with
      | [] => false
      | d :: rest => cs.any (fun c => cieq c d) && k rest
    | .wsp =>
      match s with
      | [] => false
      | d :: rest => pywsp d && k rest
    | .dot =>
      match s with
      | [] => false
      | d :: rest => !(d == '\n') && k rest
    | .eol => (decide (s = []) || decide (s = ['\n'])) && k s
    | .seq a b => reMatch n a s (fun s2 => reMatch n b s2 k)
    | .alt a b => reMatch n a s k || reMatch n b s k
    | .plus a => reMatch n a s (fun s2 => k s2 || reMatch n (.plus a) s2 k)
    | .opt a => reMatch n a s k || k s

/-- `re.search(r, content, re.IGNORECASE)` as a boolean: does `r` match
starting at any position of `content`? -/
def research (r : Regex) (content : String) : Bool :=
  let cs := content.data
  (List.range (cs.length + 1)).any
    (fun i => reMatch ((cs.length + 2) * (rsize r + 2)) r (cs.drop i) (fun _ => true))

/-- Sequence of literal characters. -/
def rstr (s : String) : Regex := s.data.foldr (fun c acc => .seq (.ch c) acc) .eps

/-- Concatenation of a list of patterns. -/
def rcat (l : List Regex) : Regex := l.foldr .seq .eps

/-- Alternation of a nonempty list of patterns (`a|b|...`). -/
def ralt : List Regex → Regex
  | [] => .eps
  | [r] => r
  | r :: rest => .alt r (ralt rest)

/-! ## Built-in rule set

Embedding of `FilterModule.rule_set`; each `Regex` value is the syntax
tree of the corresponding Python pattern literal, noted in the comment. -/

structure RuleSpec where
  include_pats : List Regex
  exclude_pats : List Regex
deriving DecidableEq

/-- Pattern `Blu-?Ray.+VC-?1|Blu-?Ray.+AVC|UHD.+blu-?ray.+HEVC`. -/
def bluRe : Regex :=
  ralt [rcat [rstr "Blu", .opt (.ch '-'), rstr "Ray", .plus .dot, rstr "VC", .opt (.ch '-'), .ch '1'],
        rcat [rstr "Blu", .opt (.ch '-'), rstr "Ray", .plus .dot, rstr "AVC"],
        rcat [rstr "UHD", .plus .dot, rstr "blu", .opt (.ch '-'), rstr "ray", .plus .dot, rstr "HEVC"]]

/-- Pattern `4k|2160p|x2160`. -/
def fourKRe : Regex := ralt [rstr "4k", rstr "2160p", rstr "x2160"]

/-- Pattern `1080[pi]|x1080`. -/
def tenEightyRe : Regex := ralt [rcat [rstr "1080", .cls ['p', 'i']], rstr "x1080"]

/-- The separator group `(/|\s|\\|\|)` of the CN pattern. -/
def cnSepRe : Regex := ralt [.ch '/', .wsp, .ch '\\', .ch '|']

/-- Pattern
`特效|[中国國繁简](/|\s|\\|\|)?[繁简英粤]|[英简繁](/|\s|\\|\|)?[中繁简]|繁體|简体|[中国國][字配]|国语|國語|中文`. -/
def cnRe : Regex :=
  ralt [rstr "特效",
        rcat [.cls ['中', '国', '國', '繁', '简'], .opt cnSepRe, .cls ['繁', '简', '英', '粤']],
        rcat [.cls ['英', '简', '繁'], .opt cnSepRe, .cls ['中', '繁', '简']],
        rstr "繁體",
        rstr "简体",
        rcat [.cls ['中', '国', '國'], .cls ['字', '配']],
        rstr "国语",
        rstr "國語",
        rstr "中文"]

/-- Pattern `[Hx].?265`. -/
def h265Re : Regex := rcat [.cls ['H', 'x'], .opt .dot, rstr "265"]

/-- Pattern `[Hx].?264`. -/
def h264Re : Regex := rcat [.cls ['H', 'x'], .opt .dot, rstr "264"]

/-- Pattern `DOLBY|DOVI|\s+DV$|\s+DV\s+`. -/
def dolbyRe : Regex :=
  ralt [rstr "DOLBY", rstr "DOVI",
        rcat [.plus .wsp, rstr "DV", .eol],
        rcat [.plus .wsp, rstr "DV", .plus .wsp]]

/-- Pattern `\s+HDR\s+|HDR10|HDR10\+`. -/
def hdrRe : Regex :=
  ralt [rcat [.plus .wsp, rstr "HDR", .plus .wsp], rstr "HDR10", rcat [rstr "HDR10", .ch '+']]

/-- Pattern `REMUX`. -/
def remuxRe : Regex := rstr "REMUX"

/-- `FilterModule.rule_set`: the ordered table of built-in predicates. -/
def rule_set : List (String × RuleSpec) :=
  [("BLU", ⟨[bluRe], []⟩),
   ("4K", ⟨[fourKRe], []⟩),
   ("1080P", ⟨[tenEightyRe], []⟩),
   ("CN", ⟨[cnRe], []⟩),
   ("H265", ⟨[h265Re], []⟩),
   ("H264", ⟨[h264Re], []⟩),
   ("DOLBY", ⟨[dolbyRe], []⟩),
   ("HDR", ⟨[hdrRe], []⟩),
   ("REMUX", ⟨[remuxRe], []⟩)]

/-- `rule_set.get(name)`: first (unique) binding of `name`. -/
def lookupRule (name : String) : Option RuleSpec :=
  match rule_set.find? (fun e => e.1 == name) with
  | none => none
  | some e => some e.2

/-! ## Torrent items and `__match_rule` -/

/-- The fields of `TorrentInfo` used by the filter module; `pri_order` is
the priority the filter assigns (`None` before assignment). -/
structure Torrent where
  title : String
  description : String
  pri_order : Option Int := none
deriving DecidableEq

/-- The text `f"{torrent.title} {torrent.description}"` that patterns are
matched against. -/
def torrentText (t : Torrent) : String := t.title ++ " " ++ t.description

/-- `FilterModule.__match_rule(torrent, rule_name)` for a string rule
name: `False` if the name is absent from `rule_set`; otherwise every
include pattern must match somewhere in the text and no exclude pattern
may match (the early-`return False` loops become `List.all`). -/
def matchRule (t : Torrent) (name : String) : Bool :=
  match lookupRule name with
  | none => false
  | some spec =>
    spec.include_pats.all (fun r => research r (torrentText t)) &&
      spec.exclude_pats.all (fun r => !research r (torrentText t))

/-! ## Parsed rule groups and `__match_group`

`RuleParser.parse(...).as_list()[0]` hands `__match_group` a value that is
either a rule-name string or a (possibly nested) list of such values and
of the keyword strings `not` / `and` / `or`.  `RItem` is that value space
(`RList` is its list layer, mutual so that all recursions are
structural). -/

mutual
inductive RItem where
  | atom (s : String)
  | group (l : RList)

inductive RList where
  | nil
  | cons (x : RItem) (l : RList)
end

/-- Build an `RList` from a Lean list. -/
def RList.ofList : List RItem → RList
  | [] => .nil
  | x :: rest => .cons x (RList.ofList rest)

/-- Is this value the keyword string `w`?  (Python `rule_group[i] == w`;
a nested list compares unequal to any string.) -/
def isKw (w : String) : RItem → Bool
  | .atom s => s == w
  | .group _ => false

/-- Truthiness of a Python value that is `None` or a bool. -/
def pyTruthy : Option Bool → Bool
  | none => false
  | some b => b

/-- `__match_rule(torrent, x)` for an arbitrary element `x`: on a string
it is `matchRule`; on a list, `self.rule_set.get(rule_name)` raises
`TypeError: unhashable type` (modelled as `none`).  The inner `Option` is
the returned Python value. -/
def matchRuleItem (t : Torrent) : RItem → Option (Option Bool)
  | .atom s => some (some (matchRule t s))
  | .group _ => none

mutual
/-- `FilterModule.__match_group(torrent, rule_group)`.  Outer `none`
means the call raised; `some v` is the returned Python value, which is a
bool or (on the fall-through when no branch applies) `None`. -/
def matchGroup (t : Torrent) : RItem → Option (Option Bool)
  | .atom s => some (some (matchRule t s))
  | .group l => matchGroupList t l

/-- The list branches of `__match_group`: a one-element list goes to
`__match_rule` on its element; `[] `raises `IndexError` at
`rule_group[0]`; a leading `not` negates the rest; `and` / `or` at index
1 combine the head with the right-folded tail `rule_group[2:]` using
Python value semantics (`x and y`, `x or y` return one of the operands);
otherwise the function falls off the end and returns `None`. -/
def matchGroupList (t : Torrent) : RList → Option (Option Bool)
  | .nil => none
  | .cons x .nil => matchRuleItem t x
  | .cons x (.cons y rest) =>
    if isKw "not" x then
      match matchGroupList t (.cons y rest) with
      | none => none
      | some v => some (some (!(pyTruthy v)))
    else if isKw "and" y then
      match matchGroup t x with
      | none => none
      | some v => if pyTruthy v then matchGroupList t rest else some v
    else if isKw "or" y then
      match matchGroup t x with
      | none => none
      | some v => if pyTruthy v then some v else matchGroupList t rest
    else some none
end

/-! ## The rule-chain parser

`RuleParser` is imported by the filter module but its source is not part
of this slice; everything in this section is therefore modelled from the
spec rather than translated from source.

Modelled from the spec: `parse(tierExpr)` (the missing
`app.modules.filter.RuleParser.RuleParser.parse`) tokenizes predicate
names, the keywords `not`/`and`/`or` and parentheses; `not` binds to the
immediately following sub-expression; `and`/`or` have no precedence
distinction and an unparenthesized chain stays flat, grouping is given
only by explicit parentheses.  A chain therefore parses to the flat list
`[A, op1, B, op2, C, ...]`, a `not` application to the two-element list
`[not, A]`, and a parenthesized sub-expression to a nested list; a lone
predicate name parses to the bare string, matching what
`parse(...).as_list()[0]` hands to `__match_group`.  Malformed input
raises a parse error, modelled as `none`. -/

inductive Tok where
  | lpar
  | rpar
  | word (s : String)
deriving DecidableEq

/-- A character that continues an identifier token. -/
def wordChar (c : Char) : Bool := !(c = '(' || c = ')' || pywsp c)

/-- Fuel-driven tokenizer body; the fuel is one more than the input
length, so it never runs out before the input does. -/
def tokenizeAux : Nat → List Char → List Tok
  | 0, _ => []
  | _ + 1, [] => []
  | n + 1, c :: rest =>
    if c = '(' then .lpar :: tokenizeAux n rest
    else if c = ')' then .rpar :: tokenizeAux n rest
    else if pywsp c then tokenizeAux n rest
    else .word (String.mk (c :: rest.takeWhile wordChar)) :: tokenizeAux n (rest.dropWhile wordChar)

/-- Tokenize a tier expression. -/
def tokenize (s : List Char) : List Tok := tokenizeAux (s.length + 1) s

mutual
/-- `primary := identifier | "(" expr ")"`; the keywords are not valid
identifiers. -/
def parsePrim : Nat → List Tok → Option (RItem × List Tok)
  | 0, _ => none
  | n + 1, ts =>
    match ts with
    | .word w :: rest =>
      if w == "and" || w == "or" || w == "not" then none else some (.atom w, rest)
    | .lpar :: rest =>
      match parseExpr n rest with
      | none => none
      | some (e, ts2) =>
        match ts2 with
        | .rpar :: ts3 => some (e, ts3)
        | _ => none
    | _ => none

/-- `clause := "not" clause | primary`; `not` wraps exactly the following
sub-expression in a two-element group. -/
def parseClause : Nat → List Tok → Option (RItem × List Tok)
  | 0, _ => none
  | n + 1, ts =>
    match ts with
    | .word w :: rest =>
      if w == "not" then
        match parseClause n rest with
        | none => none
        | some (c, ts2) => some (.group (.cons (.atom "not") (.cons c .nil)), ts2)
      else parsePrim n ts
    | _ => parsePrim n ts

/-- `expr := clause ((and|or) clause)*`, kept flat: a chain of two or
more clauses becomes one group `[c1, op1, c2, op2, ...]`, a single clause
stays bare.  `accRev` holds, reversed, the operators and clauses read so
far after the first clause. -/
def parseChain : Nat → RItem → List RItem → List Tok → Option (RItem × List Tok)
  | 0, _, _, _ => none
  | n + 1, first, accRev, ts =>
    match ts with
    | .word w :: rest =>
      if w == "and" || w == "or" then
        match parseClause n rest with
        | none => none
        | some (c, ts2) => parseChain n first (c :: .atom w :: accRev) ts2
      else
        match accRev with
        | [] => some (first, ts)
        | _ => some (.group (RList.ofList (first :: accRev.reverse)), ts)
    | _ =>
      match accRev with
      | [] => some (first, ts)
      | _ => some (.group (RList.ofList (first :: accRev.reverse)), ts)

/-- Parse a full expression. -/
def parseExpr : Nat → List Tok → Option (RItem × List Tok)
  | 0, _ => none
  | n + 1, ts =>
    match parseClause n ts with
    | none => none
    | some (c, ts2) => parseChain n c [] ts2
end

/-- `RuleParser().parse(tierExpr).as_list()[0]` (modelled from the spec):
tokenize, parse one expression, and require that every token is
consumed; any failure is a raised parse error (`none`). -/
def parseGroup (s : String) : Option RItem :=
  let ts := tokenize s.data
  match parseExpr (3 * ts.length + 8) ts with
  | none => none
  | some (e, []) => some e
  | some (_, _ :: _) => none

/-! ## `__get_order` and `filter_torrents` -/

/-- One iteration body of the tier loop of `__get_order`: strip the tier
string, parse it (a parse error raises), evaluate the parsed group
against the torrent (which may also raise), and report the truthiness of
the resulting Python value.  `none` means the tier raised. -/
def tierEval (t : Torrent) (g : String) : Option Bool :=
  match parseGroup (String.mk (stripChars g.data)) with
  | none => none
  | some it =>
    match matchGroup t it with
    | none => none
    | some v => some (pyTruthy v)

/-- The tier loop of `__get_order`: tiers are tried in order with the
current priority value `ord` (starting at 100, decremented per tier);
the first truthy tier assigns `pri_order` and stops; exhausting the
tiers returns Python `None` (inner `none`); a raising tier propagates
(outer `none`). -/
def getOrderLoop (t : Torrent) : List String → Int → Option (Option Torrent)
  | [], _ => some none
  | g :: rest, ord =>
    match tierEval t g with
    | none => none
    | some true => some (some { t with pri_order := some ord })
    | some false => getOrderLoop t rest (ord - 1)

/-- `rule_str.split(">")` as Lean strings. -/
def toTiers (rule : String) : List String :=
  (splitCharList '>' rule.data).map String.mk

/-- `FilterModule.__get_order(torrent, rule_str)`. -/
def getOrder (rule : String) (t : Torrent) : Option (Option Torrent) :=
  getOrderLoop t (toTiers rule) 100

/-- `FilterModule.filter_torrents(torrent_list)` with the configured rule
chain passed explicitly: keep, in input order, exactly the torrents for
which `__get_order` returns a (truthy) torrent; an exception while
processing any torrent propagates to the caller (outer `none`). -/
def filterTorrents (rule : String) : List Torrent → Option (List Torrent)
  | [] => some []
  | t :: rest =>
    match getOrder rule t with
    | none => none
    | some none => filterTorrents rule rest
    | some (some t2) =>
      match filterTorrents rule rest with
      | none => none
      | some out => some (t2 :: out)

mutual
/-- Rule-group values on which `__match_group` provably returns a bool
without raising: rule-name strings; one-element lists holding a string;
`not` applied to such a value; and flat `and`/`or` chains of such
values. -/
def goodShape : RItem → Bool
  | .atom _ => true
  | .group l => goodShapeList l

/-- List layer of `goodShape`, following the branch order of
`__match_group` (empty lists and one-element lists holding a nested list
are excluded: those raise). -/
def goodShapeList : RList → Bool
  | .nil => false
  | .cons x .nil =>
    match x with
    | .atom _ => true
    | .group _ => false
  | .cons x (.cons y rest) =>
    if isKw "not" x then goodShapeList (.cons y rest)
    else goodShape x && (isKw "and" y || isKw "or" y) && goodShapeList rest
end

/-- A tier string whose parse succeeds and yields a `goodShape` group. -/
def tierSafe (g : String) : Bool :=
  match parseGroup (String.mk (stripChars g.data)) with
  | none => false
  | some it => goodShape it

/-! ## The job scheduler

`Scheduler._jobs` is a dict from logical job id to a descriptor dict; it
is embedded as an insertion-ordered association list with unique keys.
The values actually stored by the code are the callable (kept here as an
opaque tag), the `running` flag, optionally default `kwargs`, and for
plugin jobs `name` / `pid` / `plugin_name`.  The apscheduler trigger
store is embedded as the list of registered trigger (physical job) ids,
plus, for `list()`, full trigger records. -/

/-- A `_jobs` table entry. -/
structure JobDesc where
  funcTag : String := ""
  running : Bool := false
  kwargs : Option (List (String × String)) := none
  name : Option String := none
  pid : Option String := none
  plugin_name : Option String := none
deriving DecidableEq

/-- `_jobs` with its insertion order. -/
abbrev JobTable := List (String × JobDesc)

/-- `self._jobs.get(jid)`. -/
def lookupJob : JobTable → String → Option JobDesc
  | [], _ => none
  | (k, d) :: rest, jid => if k = jid then some d else lookupJob rest jid

/-- `self._jobs[jid] = d` (updates in place, preserving insertion order;
appends when the key is new). -/
def setJob : JobTable → String → JobDesc → JobTable
  | [], jid, d => [(jid, d)]
  | (k, d0) :: rest, jid, d => if k = jid then (jid, d) :: rest else (k, d0) :: setJob rest jid d

/-- `self._jobs.pop(jid, None)`. -/
def popJob (t : JobTable) (jid : String) : JobTable :=
  t.filter (fun e => !(e.1 == jid))

/-- Outcome of the locked entry section of `Scheduler.start`. -/
inductive StartDecision where
  | absent
  | alreadyRunning
  | invoke
deriving DecidableEq

/-- The locked entry section of `Scheduler.start(job_id, ...)`: a missing
descriptor returns silently; a descriptor with `running` truthy logs a
warning and returns (the trigger is dropped, nothing is queued);
otherwise `running` is set and the body will be invoked after the lock
is released. -/
def startAcquire (tbl : JobTable) (jid : String) : JobTable × StartDecision :=
  match lookupJob tbl jid with
  | none => (tbl, .absent)
  | some j =>
    if j.running then (tbl, .alreadyRunning)
    else (setJob tbl jid { j with running := true }, .invoke)

/-- The argument resolution of `Scheduler.start` before invoking the
body: `if not kwargs: kwargs = job.get("kwargs") or {}` — the stored
default kwargs are substituted exactly when the caller-side mapping is
empty (`{}` is falsy, and a stored `None` or `{}` degrades to `{}`);
positional `args` are forwarded untouched. -/
def startInvokeArgs (j : JobDesc) (args : List String) (kw : List (String × String)) :
    List String × List (String × String) :=
  match kw with
  | [] => (args, j.kwargs.getD [])
  | _ => (args, kw)

/-- The locked exit section of `Scheduler.start`: flip `running` back to
`False`, tolerating a concurrently removed descriptor (`KeyError` is
swallowed), then purge the descriptor when
`self._scheduler.get_job(job_id)` finds no trigger registered under
exactly `job_id` (`trigs` is the list of registered trigger ids). -/
def startFinish (tbl : JobTable) (trigs : List String) (jid : String) : JobTable :=
  let t1 :=
    match lookupJob tbl jid with
    | none => tbl
    | some j => setJob tbl jid { j with running := false }
  if jid ∈ trigs then t1 else popJob t1 jid

/-- Does the physical trigger id `tid` reference the logical job id
`jid` in the sense of the claim: either it is `jid` itself or it has the
suffixed form `jid ++ "|" ++ suffix`? -/
def refersTo (tid jid : String) : Bool :=
  tid == jid || listIsPre (jid.data ++ ['|']) tid.data
where
  /-- Character-list prefix test. -/
  listIsPre : List Char → List Char → Bool
    | [], _ => true
    | _ :: _, [] => false
    | c :: ps, d :: ds => c == d && listIsPre ps ds

/-! ### Interleaved executions of `start`

`start` holds the lock only in its entry and exit sections; the body runs
unlocked in between, so sections of different calls interleave.  A state
of the interleaving system carries the job table and the multiset of
logical ids whose body invocation has begun and not yet finished
(`inflight`).  An event is one locked section: `beginStart jid` runs the
entry section (recording an in-flight body exactly when the decision is
`invoke`); `endBody jid trigs` runs the exit section of an in-flight
invocation against the trigger ids `trigs` registered at that moment (it
is a no-op when no body of `jid` is in flight, since the exit section
runs exactly once per acquired entry section). -/

structure SchedState where
  table : JobTable
  inflight : List String
deriving DecidableEq

inductive SEv where
  | beginStart (jid : String)
  | endBody (jid : String) (trigs : List String)

/-- One locked section. -/
def stepEv (s : SchedState) : SEv → SchedState
  | .beginStart jid =>
    match startAcquire s.table jid with
    | (t2, .invoke) => { table := t2, inflight := jid :: s.inflight }
    | (t2, _) => { table := t2, inflight := s.inflight }
  | .endBody jid trigs =>
    if jid ∈ s.inflight then
      { table := startFinish s.table trigs jid, inflight := s.inflight.erase jid }
    else s

/-- Run a sequence of locked sections. -/
def runEvs (s : SchedState) (evs : List SEv) : SchedState := evs.foldl stepEv s

/-- Exclusivity invariant: no logical id has two bodies in flight, and
every in-flight id still present in the table is marked `running`. -/
def SchedInv (s : SchedState) : Prop :=
  s.inflight.Nodup ∧
    ∀ jid ∈ s.inflight, ∃ d, lookupJob s.table jid = some d ∧ d.running = true

/-! ### `remove_plugin_job` -/

/-- `self._scheduler.remove_job(jid)` with `JobLookupError` swallowed:
drop the trigger registered under exactly `jid`, treating an absent
trigger as success. -/
def removeTrig (trigs : List String) (jid : String) : List String :=
  trigs.filter (fun s => !(s == jid))

/-- The loop of `Scheduler.remove_plugin_job(pid)`: iterate over a
snapshot (`self._jobs.copy()`) of the table; for every descriptor owned
by `pid`, pop it from the live table and remove the trigger registered
under its logical id. -/
def rpjLoop (pid : String) : List (String × JobDesc) → JobTable × List String → JobTable × List String
  | [], st => st
  | (jid, d) :: rest, (tbl, trigs) =>
    if d.pid = some pid then rpjLoop pid rest (popJob tbl jid, removeTrig trigs jid)
    else rpjLoop pid rest (tbl, trigs)

/-- `Scheduler.remove_plugin_job(pid)`, returning the job table and the
registered trigger ids after the call. -/
def remove_plugin_job (t : JobTable) (trigs : List String) (pid : String) :
    JobTable × List String :=
  rpjLoop pid t (t, trigs)

/-- The logical ids of the descriptors owned by `pid`. -/
def ownedKeys (t : JobTable) (pid : String) : List String :=
  (t.filter (fun e => e.2.pid == some pid)).map (fun e => e.1)

/-! ### `list()` -/

/-- An apscheduler job as `list()` reads it: physical id, display name,
next fire time (kept abstract as an integer timestamp). -/
structure TrigJob where
  tid : String
  tname : String
  next_run_time : Int
deriving DecidableEq

/-- A `schemas.ScheduleInfo` record as built by `list()`. -/
structure ScheduleInfo where
  sid : String
  sname : String
  provider : String
  status : String
  next_run : Option Int := none
deriving DecidableEq

/-- `job.id.split("|")[0]`: the logical id of a physical trigger id. -/
def logicalId (tid : String) : String :=
  String.mk ((splitCharList '|' tid.data).headD [])

/-- The first loop of `Scheduler.list()`: emit every descriptor whose
`running` is truthy and whose `name` and `plugin_name` are truthy, in
table order; record the display name in `added` when it is new.  The
emission is not guarded by the `added` check — only the recording is —
so two running descriptors sharing a display name are both emitted. -/
def runningPass : JobTable → List String → List String × List ScheduleInfo
  | [], added => (added, [])
  | (jid, svc) :: rest, added =>
    match svc.name, svc.plugin_name with
    | some n, some pn =>
      if svc.running && !(n == "") && !(pn == "") then
        let added2 := if n ∈ added then added else added ++ [n]
        let r := runningPass rest added2
        (r.1, { sid := jid, sname := n, provider := pn, status := "正在运行" } :: r.2)
      else runningPass rest added
    | _, _ => runningPass rest added

/-- The second loop of `Scheduler.list()`: walk the trigger store in
next-fire-time order; skip a trigger whose display name was already
recorded (recording the name even when the descriptor lookup then
fails); resolve the logical id back to a descriptor, skipping triggers
whose descriptor is gone; emit with live status, the provider label
(owner plugin name or the system marker), and the next-run time. -/
def trigPass (t : JobTable) : List TrigJob → List String → List ScheduleInfo
  | [], _ => []
  | j :: rest, added =>
    if j.tname ∈ added then trigPass t rest added
    else
      let added2 := added ++ [j.tname]
      match lookupJob t (logicalId j.tid) with
      | none => trigPass t rest added2
      | some svc =>
        { sid := logicalId j.tid, sname := j.tname,
          provider := svc.plugin_name.getD "[系统]",
          status := if svc.running then "正在运行" else "等待",
          next_run := some j.next_run_time } :: trigPass t rest added2

/-- `Scheduler.list()`: triggers sorted ascending by next fire time, the
running pass first, then the trigger pass seeded with the display names
the running pass recorded. -/
def listJobs (t : JobTable) (tj : List TrigJob) : List ScheduleInfo :=
  let sorted := List.insertionSort (fun a b => a.next_run_time ≤ b.next_run_time) tj
  let r := runningPass t []
  r.2 ++ trigPass t sorted r.1

/-- The two binary keywords of the rule language. -/
inductive BoolOp where
  | band
  | bor
deriving DecidableEq

/-- The keyword string of an operator. -/
def BoolOp.kw : BoolOp → String
  | .band => "and"
  | .bor => "or"

/-- The boolean function of an operator. -/
def BoolOp.app : BoolOp → Bool → Bool → Bool
  | .band, x, y => x && y
  | .bor, x, y => x || y

/-- The entry the first loop of `list()` emits for one table item, if
any: the descriptor must be running with truthy `name` and
`plugin_name`. -/
def mkRunEntry (e : String × JobDesc) : Option ScheduleInfo :=
  match e.2.name, e.2.plugin_name with
  | some n, some pn =>
    if e.2.running && !(n == "") && !(pn == "") then
      some { sid := e.1, sname := n, provider := pn, status := "正在运行" }
    else none
  | _, _ => none

/-! ## Association-table lemmas -/

theorem lookupJob_setJob_self (t : JobTable) (k : String) (d : JobDesc) :
    lookupJob (setJob t k d) k = some d := by
  induction t with
  | nil => simp [setJob, lookupJob]
  | cons e rest ih =>
    obtain ⟨k0, d0⟩ := e
    by_cases h : k0 = k
    · simp [setJob, h, lookupJob]
    · simp [setJob, h, lookupJob, ih]

theorem lookupJob_setJob_ne (t : JobTable) (k x : String) (d : JobDesc) (hx : x ≠ k) :
    lookupJob (setJob t k d) x = lookupJob t x := by
  have hkx : ¬ k = x := fun h => hx h.symm
  induction t with
  | nil => simp [setJob, lookupJob, hkx]
  | cons e rest ih =>
    obtain ⟨k0, d0⟩ := e
    by_cases h : k0 = k
    · subst h
      simp [setJob, lookupJob, hkx]
    · simp [setJob, h, lookupJob, ih]

theorem lookupJob_popJob_self (t : JobTable) (k : String) :
    lookupJob (popJob t k) k = none := by
  induction t with
  | nil => rfl
  | cons e rest ih =>
    obtain ⟨k0, d0⟩ := e
    by_cases h : k0 = k
    · simpa [popJob, List.filter_cons, h, lookupJob] using ih
    · simpa [popJob, List.filter_cons, h, lookupJob] using ih

theorem lookupJob_popJob_ne (t : JobTable) (k x : String) (hx : x ≠ k) :
    lookupJob (popJob t k) x = lookupJob t x := by
  induction t with
  | nil => rfl
  | cons e rest ih =>
    obtain ⟨k0, d0⟩ := e
    by_cases h : k0 = k
    · subst h
      have hk0x : ¬ k0 = x := fun h2 => hx h2.symm
      simpa [popJob, List.filter_cons, lookupJob, hk0x] using ih
    · by_cases h2 : k0 = x
      · subst h2
        simp [popJob, List.filter_cons, lookupJob, h]
      · simpa [popJob, List.filter_cons, lookupJob, h, h2] using ih

theorem lookupJob_mem (t : JobTable) (k : String) (d : JobDesc)
    (h : lookupJob t k = some d) : (k, d) ∈ t := by
  induction t with
  | nil => simp [lookupJob] at h
  | cons e rest ih =>
    obtain ⟨k0, d0⟩ := e
    by_cases h0 : k0 = k
    · subst h0
      simp [lookupJob] at h
      simp [h]
    · simp [lookupJob, h0] at h
      exact List.mem_cons_of_mem _ (ih h)

theorem isKw_atom (w s : String) : isKw w (.atom s) = (s == w) := rfl

theorem isKw_group (w : String) (l : RList) : isKw w (.group l) = false := rfl

/-! ## Claim theorems -/

/-- C5: `__match_rule(torrent, name)` returns `False` whenever `name` is
absent from the rule set; otherwise, with the match text built as title,
a space, and description, it returns `True` iff every include pattern of
the predicate matches somewhere in the text (case-insensitively,
unanchored) and no exclude pattern matches anywhere in it. -/
theorem matchRule_spec (t : Torrent) (name : String) :
    (lookupRule name = none → matchRule t name = false) ∧
    (matchRule t name = true ↔
      ∃ spec, lookupRule name = some spec ∧
        (∀ r ∈ spec.include_pats, research r (torrentText t) = true) ∧
        (∀ r ∈ spec.exclude_pats, research r (torrentText t) = false)) := by
  constructor
  · intro h
    simp [matchRule, h]
  · cases h : lookupRule name with
    | none => simp [matchRule, h]
    | some spec =>
      simp [matchRule, h, List.all_eq_true]

/-- C5 witness: the unknown predicate name `NOSUCH` silently fails to
match, and predicate `4K` matches a 2160p title via the iff. -/
theorem matchRule_spec_w :
    matchRule ⟨"Show", "", none⟩ "NOSUCH" = false ∧
    matchRule ⟨"Show.2023.2160p.HEVC", "", none⟩ "4K" = true :=
  ⟨(matchRule_spec ⟨"Show", "", none⟩ "NOSUCH").1 rfl,
   (matchRule_spec ⟨"Show.2023.2160p.HEVC", "", none⟩ "4K").2.mpr
     ⟨⟨[fourKRe], []⟩, rfl, by decide, by decide⟩⟩

/-- C10: in `start`, the descriptor's stored default kwargs are
substituted exactly when the caller-side keyword mapping is empty (so an
explicitly passed empty mapping is indistinguishable from passing none);
a nonempty caller mapping replaces the defaults entirely, never merging;
and positional arguments are forwarded untouched. -/
theorem start_kwargs (j : JobDesc) (args : List String) (kw : List (String × String))
    (hkw : kw ≠ []) :
    startInvokeArgs j args [] = (args, j.kwargs.getD []) ∧
    startInvokeArgs j args kw = (args, kw) ∧
    (startInvokeArgs j args kw).1 = args := by
  refine ⟨rfl, ?_, ?_⟩
  · cases kw with
    | nil => exact absurd rfl hkw
    | cons a l => rfl
  · cases kw with
    | nil => rfl
    | cons a l => rfl

/-- C10 witness: stored defaults are used for an empty caller mapping and
ignored for a nonempty one. -/
theorem start_kwargs_w :
    startInvokeArgs { kwargs := some [("state", "R")] } [] [] = ([], [("state", "R")]) ∧
    startInvokeArgs { kwargs := some [("state", "R")] } [] [("state", "N")] =
      ([], [("state", "N")]) :=
  ⟨(start_kwargs { kwargs := some [("state", "R")] } [] [("x", "y")] (by simp)).1,
   (start_kwargs { kwargs := some [("state", "R")] } [] [("state", "N")] (by simp)).2.1⟩

/-- C3: `not` negates only the immediately following sub-expression.  The
parse of `not A op B` (parser modelled from the spec) groups `not` with
`A` only; on that structure `__match_group` computes `(not A) op B` for
every item; and at a concrete input this differs from `not (A op B)`. -/
theorem not_binds_tight :
    parseGroup "not 4K and H265" =
      some (.group (RList.ofList
        [.group (RList.ofList [.atom "not", .atom "4K"]), .atom "and", .atom "H265"])) ∧
    (∀ (t : Torrent) (an bn : String),
      matchGroup t (.group (RList.ofList
          [.group (RList.ofList [.atom "not", .atom an]), .atom "and", .atom bn])) =
        some (some (!(matchRule t an) && matchRule t bn)) ∧
      matchGroup t (.group (RList.ofList
          [.group (RList.ofList [.atom "not", .atom an]), .atom "or", .atom bn])) =
        some (some (!(matchRule t an) || matchRule t bn))) ∧
    (matchGroup ⟨"plain", "", none⟩ (.group (RList.ofList
        [.group (RList.ofList [.atom "not", .atom "4K"]), .atom "and", .atom "H265"])) =
        some (some false) ∧
      (!(matchRule ⟨"plain", "", none⟩ "4K" && matchRule ⟨"plain", "", none⟩ "H265")) = true) := by
  refine ⟨rfl, ?_, by decide⟩
  intro t an bn
  constructor
  · cases hva : matchRule t an <;> cases hvb : matchRule t bn <;>
      simp [matchGroup, matchGroupList, matchRuleItem, isKw_atom, isKw_group,
        pyTruthy, RList.ofList, hva, hvb]
  · cases hva : matchRule t an <;> cases hvb : matchRule t bn <;>
      simp [matchGroup, matchGroupList, matchRuleItem, isKw_atom, isKw_group,
        pyTruthy, RList.ofList, hva, hvb]

/-- C4: an unparenthesized chain `A op1 B op2 C` is evaluated by
combining the leftmost operand with the right-folded remainder,
`A op1 (B op2 C)`, with no precedence distinction between `and` and
`or`; at a concrete input this differs from the left-folded
`(A op1 B) op2 C`. -/
theorem chain_right_fold :
    (∀ (t : Torrent) (a b : RItem) (va vb : Bool) (op1 op2 : BoolOp) (cn : String),
      isKw "not" a = false → isKw "not" b = false →
      matchGroup t a = some (some va) → matchGroup t b = some (some vb) →
      matchGroup t (.group (RList.ofList
          [a, .atom op1.kw, b, .atom op2.kw, .atom cn])) =
        some (some (op1.app va (op2.app vb (matchRule t cn))))) ∧
    (matchGroup ⟨"Show.2160p", "", none⟩ (.group (RList.ofList
        [.atom "H265", .atom "and", .atom "H264", .atom "or", .atom "4K"])) =
        some (some false) ∧
      BoolOp.bor.app
          (BoolOp.band.app (matchRule ⟨"Show.2160p", "", none⟩ "H265")
            (matchRule ⟨"Show.2160p", "", none⟩ "H264"))
          (matchRule ⟨"Show.2160p", "", none⟩ "4K") = true) := by
  refine ⟨?_, by decide⟩
  intro t a b va vb op1 op2 cn hna hnb hva hvb
  cases op1 <;> cases op2 <;> cases va <;> cases vb <;>
    simp [matchGroup, matchGroupList, matchRuleItem, BoolOp.kw, BoolOp.app, isKw_atom,
      isKw_group, pyTruthy, RList.ofList, hna, hnb, hva, hvb]

/-- C4 witness: the right-fold equation at the concrete chain
`H265 and H264 or 4K` on a 2160p title. -/
theorem chain_right_fold_w :
    matchGroup ⟨"Show.2160p", "", none⟩ (.group (RList.ofList
        [.atom "H265", .atom "and", .atom "H264", .atom "or", .atom "4K"])) =
      some (some (BoolOp.band.app false
        (BoolOp.bor.app false (matchRule ⟨"Show.2160p", "", none⟩ "4K")))) :=
  chain_right_fold.1 ⟨"Show.2160p", "", none⟩ (.atom "H265") (.atom "H264") false false
    .band .bor "4K" (by decide) (by decide) (by decide) (by decide)

/-- C7 counterexample: the physical trigger `jobA|1` references the
logical id `jobA` in the claim's sense, yet the completion step of
`start` purges the descriptor anyway, because
`self._scheduler.get_job("jobA")` looks the trigger up by exact id
only. -/
theorem start_purge_cex :
    refersTo "jobA|1" "jobA" = true ∧
    lookupJob [("jobA", { running := true })] "jobA" = some { running := true } ∧
    lookupJob (startFinish [("jobA", { running := true })] ["jobA|1"] "jobA") "jobA" =
      none := by
  decide

/-- C7 amended: at completion, the descriptor is deleted from the job
table exactly when no trigger is registered under exactly `jobId`;
physical triggers registered under suffixed ids `jobId|suffix` do not
count, so the descriptor is purged even when such triggers remain.
When a trigger registered under exactly `jobId` remains, the descriptor
stays with `running` flipped to `False`. -/
theorem start_purge (tbl : JobTable) (trigs : List String) (jid : String) (j : JobDesc)
    (h : lookupJob tbl jid = some j) :
    (jid ∈ trigs → lookupJob (startFinish tbl trigs jid) jid =
      some { j with running := false }) ∧
    (jid ∉ trigs → lookupJob (startFinish tbl trigs jid) jid = none) := by
  constructor
  · intro hm
    simp [startFinish, h, hm, lookupJob_setJob_self]
  · intro hm
    simp [startFinish, h, hm, lookupJob_popJob_self]

/-- C7 witness: with a trigger registered under exactly the logical id,
the descriptor survives completion with `running = False`. -/
theorem start_purge_w :
    lookupJob (startFinish [("a", { running := true })] ["a"] "a") "a" =
      some { running := false } :=
  (start_purge [("a", { running := true })] ["a"] "a" { running := true } rfl).1 (by simp)

/-! ### C6: exceptions in `filterAndPrioritize` -/

mutual
/-- Well-shaped rule groups evaluate to a bool without raising. -/
theorem goodShape_eval (t : Torrent) : (g : RItem) → goodShape g = true →
    ∃ b, matchGroup t g = some (some b)
  | .atom s, _ => ⟨matchRule t s, rfl⟩
  | .group l, h => goodShapeList_eval t l (by simpa [goodShape] using h)

/-- List layer of `goodShape_eval`. -/
theorem goodShapeList_eval (t : Torrent) : (l : RList) → goodShapeList l = true →
    ∃ b, matchGroupList t l = some (some b)
  | .nil, h => by simp [goodShapeList] at h
  | .cons x .nil, h => by
    cases x with
    | atom s => exact ⟨matchRule t s, rfl⟩
    | group l2 => simp [goodShapeList] at h
  | .cons x (.cons y rest), h => by
    by_cases hnx : isKw "not" x = true
    · obtain ⟨b, hb⟩ :=
        goodShapeList_eval t (.cons y rest) (by simpa [goodShapeList, hnx] using h)
      exact ⟨!b, by simp [matchGroupList, hnx, hb, pyTruthy]⟩
    · rw [goodShapeList, if_neg hnx] at h
      simp only [Bool.and_eq_true, Bool.or_eq_true] at h
      obtain ⟨⟨hx, hy⟩, hr⟩ := h
      obtain ⟨bx, hbx⟩ := goodShape_eval t x hx
      obtain ⟨br, hbr⟩ := goodShapeList_eval t rest hr
      by_cases hand : isKw "and" y = true
      · refine ⟨if bx then br else false, ?_⟩
        cases bx <;> simp [matchGroupList, hnx, hand, hbx, hbr, pyTruthy]
      · have hor : isKw "or" y = true := by
          cases hy with
          | inl h2 => exact absurd h2 hand
          | inr h2 => exact h2
        refine ⟨if bx then bx else br, ?_⟩
        cases bx <;> simp [matchGroupList, hnx, hand, hor, hbx, hbr, pyTruthy]
end

/-- A safe tier evaluates to a definite truthiness for every torrent. -/
theorem tierSafe_eval (g : String) (hg : tierSafe g = true) (t : Torrent) :
    ∃ b, tierEval t g = some b := by
  unfold tierSafe at hg
  unfold tierEval
  cases hp : parseGroup (String.mk (stripChars g.data)) with
  | none => rw [hp] at hg; simp at hg
  | some it =>
    rw [hp] at hg
    obtain ⟨b, hb⟩ := goodShape_eval t it hg
    exact ⟨b, by simp [hb, pyTruthy]⟩

/-- The tier loop returns without raising over safe tiers. -/
theorem getOrderLoop_safe (t : Torrent) (gs : List String)
    (hgs : ∀ g ∈ gs, tierSafe g = true) : ∀ ord, ∃ r, getOrderLoop t gs ord = some r := by
  induction gs with
  | nil => exact fun ord => ⟨none, rfl⟩
  | cons g rest ih =>
    intro ord
    obtain ⟨b, hb⟩ := tierSafe_eval g (hgs g (by simp)) t
    cases b with
    | true => exact ⟨some { t with pri_order := some ord }, by simp [getOrderLoop, hb]⟩
    | false =>
      obtain ⟨r, hr⟩ := ih (fun g2 h2 => hgs g2 (List.mem_cons_of_mem _ h2)) (ord - 1)
      exact ⟨r, by simp [getOrderLoop, hb, hr]⟩

/-- C6 counterexample: the well-formed rule chain `not (4K and H265)`
(its single tier parses) makes `filter_torrents` raise — inside
`__match_group`, the parenthesized sub-expression reaches `__match_rule`
as a list and `rule_set.get` raises `TypeError` — instead of returning
normally with the item excluded. -/
theorem filter_raises_cex :
    filterTorrents "not (4K and H265)" [⟨"Movie", "", none⟩] = none ∧
    (parseGroup "not (4K and H265)").isSome = true := by
  constructor
  · decide
  · rfl

/-- C6 amended: when every tier of the chain parses to a well-shaped
group (rule names combined by `not`/`and`/`or` without a parenthesized
sub-expression in operand position), `filter_torrents` returns normally
for every item list; unknown predicate names inside such chains merely
fail to match.  Malformed chains, or chains with parenthesized operands,
can raise instead (see the counterexample). -/
theorem filter_no_raise (rule : String) (hrule : ∀ g ∈ toTiers rule, tierSafe g = true) :
    ∀ ts, ∃ out, filterTorrents rule ts = some out := by
  intro ts
  induction ts with
  | nil => exact ⟨[], rfl⟩
  | cons t rest ih =>
    obtain ⟨r, hr⟩ := getOrderLoop_safe t (toTiers rule) hrule 100
    obtain ⟨out, hout⟩ := ih
    cases r with
    | none => exact ⟨out, by simp [filterTorrents, getOrder, hr, hout]⟩
    | some t2 => exact ⟨t2 :: out, by simp [filterTorrents, getOrder, hr, hout]⟩

/-- C6 witness: the chain `UNKNOWN>1080P` (an unknown predicate name in
tier 0) returns normally on a non-matching item. -/
theorem filter_no_raise_w :
    ∃ out, filterTorrents "UNKNOWN>1080P" [⟨"Show.2023.720p", "", none⟩] = some out :=
  filter_no_raise "UNKNOWN>1080P" (by decide) [⟨"Show.2023.720p", "", none⟩]

/-! ### C2: stability and priority assignment -/

/-- When `filter_torrents` returns, its output is the order-preserving
`filterMap` of `__get_order` over the input (the stable filter). -/
theorem filterTorrents_filterMap (rule : String) (ts out : List Torrent)
    (h : filterTorrents rule ts = some out) :
    out = ts.filterMap (fun t => (getOrder rule t).getD none) := by
  induction ts generalizing out with
  | nil =>
    simp [filterTorrents] at h
    subst h
    simp
  | cons t rest ih =>
    rw [filterTorrents] at h
    cases hg : getOrder rule t with
    | none => rw [hg] at h; exact absurd h (by simp)
    | some r =>
      rw [hg] at h
      cases r with
      | none =>
        rw [List.filterMap_cons]
        simp only [hg, Option.getD_some]
        exact ih out h
      | some t2 =>
        cases hrest : filterTorrents rule rest with
        | none => rw [hrest] at h; exact absurd h (by simp)
        | some out2 =>
          rw [hrest] at h
          simp only [Option.some_inj] at h
          rw [List.filterMap_cons]
          simp only [hg, Option.getD_some]
          rw [← h, ih out2 hrest]

/-- Characterization of the tier loop of `__get_order`: it returns a
torrent exactly when some tier is the first to evaluate truthy — all
earlier tiers evaluating falsy without raising — and then the assigned
priority is the start value minus the tier index. -/
theorem getOrderLoop_spec (t : Torrent) (gs : List String) :
    ∀ (ord : Int) (t2 : Torrent),
      getOrderLoop t gs ord = some (some t2) ↔
        ∃ k : Nat, (∃ g, gs[k]? = some g ∧ tierEval t g = some true) ∧
          (∀ j, j < k → ∀ g, gs[j]? = some g → tierEval t g = some false) ∧
          t2 = { t with pri_order := some (ord - k) } := by
  induction gs with
  | nil =>
    intro ord t2
    simp [getOrderLoop]
  | cons g rest ih =>
    intro ord t2
    cases he : tierEval t g with
    | none =>
      simp only [getOrderLoop, he]
      constructor
      · intro h
        exact absurd h (by simp)
      · rintro ⟨k, ⟨g2, hg2, htrue⟩, hprev, ht2⟩
        cases k with
        | zero =>
          simp only [List.getElem?_cons_zero, Option.some_inj] at hg2
          rw [← hg2] at htrue
          rw [he] at htrue
          exact absurd htrue (by simp)
        | succ k2 =>
          have := hprev 0 (Nat.succ_pos k2) g (by simp)
          rw [he] at this
          exact absurd this (by simp)
    | some b =>
      cases b with
      | true =>
        simp only [getOrderLoop, he]
        constructor
        · intro h
          simp only [Option.some_inj] at h
          exact ⟨0, ⟨g, by simp, he⟩, fun j hj => absurd hj (Nat.not_lt_zero j),
            by simp [h.symm]⟩
        · rintro ⟨k, ⟨g2, hg2, htrue⟩, hprev, ht2⟩
          cases k with
          | zero =>
            simp only [Nat.cast_zero, sub_zero] at ht2
            rw [ht2]
          | succ k2 =>
            have := hprev 0 (Nat.succ_pos k2) g (by simp)
            rw [he] at this
            exact absurd this (by simp)
      | false =>
        simp only [getOrderLoop, he]
        rw [ih (ord - 1) t2]
        constructor
        · rintro ⟨k, ⟨g2, hg2, htrue⟩, hprev, ht2⟩
          refine ⟨k + 1, ⟨g2, by simpa using hg2, htrue⟩, ?_, ?_⟩
          · intro j hj g3 hg3
            cases j with
            | zero =>
              simp only [List.getElem?_cons_zero, Option.some_inj] at hg3
              rw [hg3.symm]
              exact he
            | succ j2 =>
              exact hprev j2 (Nat.lt_of_succ_lt_succ hj) g3 (by simpa using hg3)
          · rw [ht2]
            congr 1
            simp only [Option.some_inj]
            push_cast
            ring
        · rintro ⟨k, ⟨g2, hg2, htrue⟩, hprev, ht2⟩
          cases k with
          | zero =>
            simp only [List.getElem?_cons_zero, Option.some_inj] at hg2
            rw [← hg2] at htrue
            rw [he] at htrue
            exact absurd htrue (by simp)
          | succ k2 =>
            refine ⟨k2, ⟨g2, by simpa using hg2, htrue⟩, ?_, ?_⟩
            · intro j hj g3 hg3
              exact hprev (j + 1) (Nat.succ_lt_succ hj) g3 (by simpa using hg3)
            · rw [ht2]
              congr 1
              simp only [Option.some_inj]
              push_cast
              ring

/-- C2: every item kept by the filter has `pri_order = 100 − k` where
`k` is the zero-based index of the first tier whose expression evaluated
truthy, every earlier tier having evaluated falsy; items matching no tier
are absent; and the output preserves the input's relative order (it is
the `filterMap` of `__get_order` over the input list). -/
theorem filter_stable_priority (rule : String) (ts out : List Torrent)
    (h : filterTorrents rule ts = some out) :
    out = ts.filterMap (fun t => (getOrder rule t).getD none) ∧
    ∀ t t2, getOrder rule t = some (some t2) →
      ∃ k : Nat, (∃ g, (toTiers rule)[k]? = some g ∧ tierEval t g = some true) ∧
        (∀ j, j < k → ∀ g, (toTiers rule)[j]? = some g → tierEval t g = some false) ∧
        t2 = { t with pri_order := some (100 - (k : Int)) } := by
  refine ⟨filterTorrents_filterMap rule ts out h, ?_⟩
  intro t t2 hg
  exact (getOrderLoop_spec t (toTiers rule) 100 t2).mp hg

/-- C2 witness: with chain `4K>1080P`, a 1080p item is kept with
priority `99 = 100 − 1` and appears as the filter-map image of the
input. -/
theorem filter_stable_priority_w :
    [(⟨"Show.2023.1080p.x264", "", some 99⟩ : Torrent)] =
      [(⟨"Show.2023.1080p.x264", "", none⟩ : Torrent)].filterMap
        (fun t => (getOrder "4K>1080P" t).getD none) :=
  (filter_stable_priority "4K>1080P" [⟨"Show.2023.1080p.x264", "", none⟩]
    [⟨"Show.2023.1080p.x264", "", some 99⟩] (by decide)).1

/-! ### C1: exclusivity of `start` -/

/-- One locked section preserves the exclusivity invariant. -/
theorem stepEv_inv (s : SchedState) (e : SEv) (h : SchedInv s) : SchedInv (stepEv s e) := by
  obtain ⟨hnd, hrun⟩ := h
  cases e with
  | beginStart jid =>
    cases hL : lookupJob s.table jid with
    | none =>
      simp only [stepEv, startAcquire, hL]
      exact ⟨hnd, hrun⟩
    | some j =>
      by_cases hr : j.running = true
      · simp only [stepEv, startAcquire, hL, hr, if_true]
        exact ⟨hnd, hrun⟩
      · have hnotin : jid ∉ s.inflight := by
          intro hin
          obtain ⟨d, hd, hdr⟩ := hrun jid hin
          rw [hL] at hd
          simp only [Option.some_inj] at hd
          rw [hd.symm] at hdr
          exact hr hdr
        simp only [stepEv, startAcquire, hL, hr, if_false]
        refine ⟨List.nodup_cons.mpr ⟨hnotin, hnd⟩, ?_⟩
        intro x hx
        rcases List.mem_cons.mp hx with hx0 | hx1
        · subst hx0
          exact ⟨{ j with running := true }, lookupJob_setJob_self _ _ _, rfl⟩
        · have hxne : x ≠ jid := fun hxe => hnotin (hxe ▸ hx1)
          obtain ⟨d, hd, hdr⟩ := hrun x hx1
          exact ⟨d, (lookupJob_setJob_ne s.table jid x _ hxne).trans hd, hdr⟩
  | endBody jid trigs =>
    by_cases hin : jid ∈ s.inflight
    · simp only [stepEv, hin, if_true]
      refine ⟨hnd.erase jid, ?_⟩
      intro x hx
      have hx1 : x ∈ s.inflight := List.mem_of_mem_erase hx
      have hxne : x ≠ jid := by
        intro hxe
        subst hxe
        exact (hnd.not_mem_erase) hx
      obtain ⟨d, hd, hdr⟩ := hrun x hx1
      refine ⟨d, ?_, hdr⟩
      unfold startFinish
      by_cases hm : jid ∈ trigs
      · rw [if_pos hm]
        cases hL : lookupJob s.table jid with
        | none => simpa [hL] using hd
        | some j =>
          simp only [hL]
          exact (lookupJob_setJob_ne s.table jid x _ hxne).trans hd
      · rw [if_neg hm]
        rw [lookupJob_popJob_ne _ jid x hxne]
        cases hL : lookupJob s.table jid with
        | none => simpa [hL] using hd
        | some j =>
          simp only [hL]
          exact (lookupJob_setJob_ne s.table jid x _ hxne).trans hd
    · simp only [stepEv, hin, if_false]
      exact ⟨hnd, hrun⟩

/-- Any sequence of locked sections preserves the invariant. -/
theorem runEvs_inv (s : SchedState) (evs : List SEv) (h : SchedInv s) :
    SchedInv (runEvs s evs) := by
  induction evs generalizing s with
  | nil => exact h
  | cons e rest ih => exact ih (stepEv s e) (stepEv_inv s e h)

/-- C1: a `start` that observes `running = True` logs and returns — the
table is unchanged, the decision is `alreadyRunning`, and the whole
locked section is a no-op on the scheduler state (the duplicate trigger
is dropped, never queued); consequently, along any interleaving of
`start` sections from a state satisfying the exclusivity invariant, at
most one body execution per logical job id is in flight at any time. -/
theorem start_exclusive :
    (∀ (s : SchedState) (jid : String) (j : JobDesc),
      lookupJob s.table jid = some j → j.running = true →
      startAcquire s.table jid = (s.table, StartDecision.alreadyRunning) ∧
      stepEv s (SEv.beginStart jid) = s) ∧
    (∀ (s : SchedState) (evs : List SEv), SchedInv s →
      SchedInv (runEvs s evs) ∧ ∀ jid, (runEvs s evs).inflight.count jid ≤ 1) := by
  constructor
  · intro s jid j h hr
    have ha : startAcquire s.table jid = (s.table, StartDecision.alreadyRunning) := by
      simp [startAcquire, h, hr]
    refine ⟨ha, ?_⟩
    simp only [stepEv, ha]
  · intro s evs h
    have hinv := runEvs_inv s evs h
    exact ⟨hinv, fun jid => List.nodup_iff_count_le_one.mp hinv.1 jid⟩

/-- C1 witness: from a fresh table, the trace "begin `a`; begin `a`
again while running; finish `a`" keeps the invariant, the duplicate
begin is a verbatim no-op, and no id ever has two bodies in flight. -/
theorem start_exclusive_w :
    (startAcquire [("a", { running := true })] "a" =
      ([("a", { running := true })], StartDecision.alreadyRunning) ∧
      stepEv ⟨[("a", { running := true })], ["a"]⟩ (SEv.beginStart "a") =
        ⟨[("a", { running := true })], ["a"]⟩) ∧
    SchedInv (runEvs ⟨[("a", { running := false })], []⟩
      [SEv.beginStart "a", SEv.beginStart "a", SEv.endBody "a" []]) := by
  constructor
  · exact start_exclusive.1 ⟨[("a", { running := true })], ["a"]⟩ "a"
      { running := true } rfl rfl
  · refine (start_exclusive.2 ⟨[("a", { running := false })], []⟩
      [SEv.beginStart "a", SEv.beginStart "a", SEv.endBody "a" []] ?_).1
    exact ⟨List.nodup_nil, fun jid h => absurd h (List.not_mem_nil jid)⟩

/-! ### C8: `remove_plugin_job` -/

/-- The removal loop, over any snapshot, filters the owned logical ids
out of both the job table and the trigger store (exact ids only). -/
theorem rpjLoop_eq (pid : String) (snap : List (String × JobDesc)) :
    ∀ (tbl : JobTable) (trigs : List String),
      rpjLoop pid snap (tbl, trigs) =
        (tbl.filter (fun e => !((ownedKeys snap pid).contains e.1)),
         trigs.filter (fun s => !((ownedKeys snap pid).contains s))) := by
  induction snap with
  | nil =>
    intro tbl trigs
    simp [rpjLoop, ownedKeys]
  | cons e rest ih =>
    obtain ⟨jid, d⟩ := e
    intro tbl trigs
    by_cases hp : d.pid = some pid
    · have hok : ownedKeys ((jid, d) :: rest) pid = jid :: ownedKeys rest pid := by
        simp [ownedKeys, List.filter_cons, hp]
      simp only [rpjLoop, if_pos hp]
      rw [ih, hok]
      simp only [Prod.mk.injEq]
      constructor
      · rw [popJob, List.filter_filter]
        apply List.filter_congr
        intro a _
        have hbe : (a.1 == jid) = false ∨ (a.1 == jid) = true := by
          cases a.1 == jid <;> simp
        rcases hbe with hbe | hbe
        · have hae : ¬ a.1 = jid := fun h2 => by simp [h2] at hbe
          simp [List.contains_cons, hbe, hae, Bool.not_or, Bool.and_comm]
        · have hae : a.1 = jid := by simpa using hbe
          simp [List.contains_cons, hbe, hae]
      · rw [removeTrig, List.filter_filter]
        apply List.filter_congr
        intro a _
        have hbe : (a == jid) = false ∨ (a == jid) = true := by
          cases a == jid <;> simp
        rcases hbe with hbe | hbe
        · have hae : ¬ a = jid := fun h2 => by simp [h2] at hbe
          simp [List.contains_cons, hbe, hae, Bool.not_or, Bool.and_comm]
        · have hae : a = jid := by simpa using hbe
          simp [List.contains_cons, hbe, hae]
    · have hok : ownedKeys ((jid, d) :: rest) pid = ownedKeys rest pid := by
        simp [ownedKeys, List.filter_cons, hp]
      simp only [rpjLoop, if_neg hp]
      rw [ih, hok]

/-- C8 amended: after `remove_plugin_job(pid)` no descriptor owned by
`pid` remains; the trigger store loses exactly the triggers registered
under an owned logical id (removal of an already-absent trigger being a
no-op, hence success); triggers registered under suffixed physical ids
`<jobId>|<suffix>` are not removed and survive the call. -/
theorem remove_plugin_spec (t : JobTable) (trigs : List String) (pid : String) :
    (∀ jid d, lookupJob (remove_plugin_job t trigs pid).1 jid = some d →
      d.pid ≠ some pid) ∧
    (remove_plugin_job t trigs pid).2 =
      trigs.filter (fun s => !((ownedKeys t pid).contains s)) ∧
    (∀ s ∈ trigs, (ownedKeys t pid).contains s = false →
      s ∈ (remove_plugin_job t trigs pid).2) := by
  have he := rpjLoop_eq pid t t trigs
  have h1 : (remove_plugin_job t trigs pid).1 =
      t.filter (fun e => !((ownedKeys t pid).contains e.1)) := by
    rw [remove_plugin_job, he]
  have h2 : (remove_plugin_job t trigs pid).2 =
      trigs.filter (fun s => !((ownedKeys t pid).contains s)) := by
    rw [remove_plugin_job, he]
  refine ⟨?_, h2, ?_⟩
  · intro jid d hl hdp
    have hmem := lookupJob_mem _ _ _ hl
    rw [h1] at hmem
    have hmem2 := List.mem_filter.mp hmem
    have howned : jid ∈ ownedKeys t pid := by
      apply List.mem_map.mpr
      refine ⟨(jid, d), List.mem_filter.mpr ⟨hmem2.1, ?_⟩, rfl⟩
      simp [hdp]
    have := hmem2.2
    simp at this
    exact this howned
  · intro s hs hc
    rw [h2]
    refine List.mem_filter.mpr ⟨hs, ?_⟩
    have : s ∉ ownedKeys t pid := by simpa using hc
    simpa using this

/-- C8 counterexample: a descriptor `jobA` owned by plugin `p1` has a
physical trigger registered under the suffixed id `jobA|1` (which
references it in the claim's sense); after `remove_plugin_job("p1")`
the trigger is still registered, because the loop removes only the
trigger registered under exactly the logical id. -/
theorem remove_plugin_cex :
    lookupJob [("jobA", { pid := some "p1" })] "jobA" = some { pid := some "p1" } ∧
    refersTo "jobA|1" "jobA" = true ∧
    (remove_plugin_job [("jobA", { pid := some "p1" })] ["jobA|1"] "p1").2 =
      ["jobA|1"] := by
  decide

/-- C8 witness: the suffixed trigger `jobA|1` survives the removal of
plugin `p1`, and descriptors of other plugins are untouched. -/
theorem remove_plugin_spec_w :
    "jobA|1" ∈ (remove_plugin_job [("jobA", { pid := some "p1" })] ["jobA|1"] "p1").2 :=
  (remove_plugin_spec [("jobA", { pid := some "p1" })] ["jobA|1"] "p1").2.2 "jobA|1"
    (by decide) (by decide)

/-! ### C9: `list()` emission -/

/-- The running pass emits exactly one entry per qualifying descriptor,
in table order, regardless of the already-recorded names. -/
theorem runningPass_entries (t : JobTable) :
    ∀ added, (runningPass t added).2 = t.filterMap mkRunEntry := by
  induction t with
  | nil => intro added; rfl
  | cons e rest ih =>
    obtain ⟨jid, svc⟩ := e
    intro added
    cases hn : svc.name with
    | none => simp [runningPass, mkRunEntry, hn, ih]
    | some n =>
      cases hpn : svc.plugin_name with
      | none => simp [runningPass, mkRunEntry, hn, hpn, ih]
      | some pn =>
        by_cases hg : (svc.running && !(n == "") && !(pn == "")) = true
        · simp [runningPass, mkRunEntry, hn, hpn, hg, ih]
        · simp [runningPass, mkRunEntry, hn, hpn, hg, ih]

/-- Every entry the trigger pass emits has a display name that was not
among the already-recorded names it started from. -/
theorem trigPass_skips (t : JobTable) :
    ∀ (js : List TrigJob) (added : List String) (e : ScheduleInfo),
      e ∈ trigPass t js added → e.sname ∉ added := by
  intro js
  induction js with
  | nil =>
    intro added e he
    simp [trigPass] at he
  | cons j rest ih =>
    intro added e he
    by_cases hn : j.tname ∈ added
    · rw [trigPass] at he
      rw [if_pos hn] at he
      exact ih added e he
    · rw [trigPass] at he
      rw [if_neg hn] at he
      cases hL : lookupJob t (logicalId j.tid) with
      | none =>
        rw [hL] at he
        have := ih (added ++ [j.tname]) e he
        intro hmem
        exact this (List.mem_append_left _ hmem)
      | some svc =>
        rw [hL] at he
        rcases List.mem_cons.mp he with he0 | he1
        · rw [he0]
          exact hn
        · have := ih (added ++ [j.tname]) e he1
          intro hmem
          exact this (List.mem_append_left _ hmem)

/-- C9 amended: `list()` is the running pass followed by the trigger
pass; the running pass emits one entry per running descriptor with a
truthy name and provider — once per descriptor id, so several ids
sharing a display name are all emitted, the dedup list only recording
the name — and every trigger-pass entry has a display name that was not
recorded by the running pass (nor seen earlier in the trigger pass). -/
theorem list_emission (t : JobTable) (tj : List TrigJob) :
    listJobs t tj =
      (runningPass t []).2 ++
        trigPass t (List.insertionSort (fun a b => a.next_run_time ≤ b.next_run_time) tj)
          (runningPass t []).1 ∧
    (∀ added, (runningPass t added).2 = t.filterMap mkRunEntry) ∧
    (∀ e ∈ trigPass t
        (List.insertionSort (fun a b => a.next_run_time ≤ b.next_run_time) tj)
        (runningPass t []).1,
      e.sname ∉ (runningPass t []).1) := by
  refine ⟨rfl, runningPass_entries t, ?_⟩
  intro e he
  exact trigPass_skips t _ _ e he

/-- C9 counterexample: two running descriptors share the display name
`N` and both are emitted — the first loop of `list()` records the name
for dedup but appends the entry unconditionally — so the output carries
the same display name twice. -/
theorem list_emission_cex :
    listJobs [("a", { running := true, name := some "N", plugin_name := some "P" }),
              ("b", { running := true, name := some "N", plugin_name := some "P" })] [] =
      [{ sid := "a", sname := "N", provider := "P", status := "正在运行" },
       { sid := "b", sname := "N", provider := "P", status := "正在运行" }] := by
  decide

/-- C9 witness: a trigger-pass entry (`M`, from trigger `x|5` of the
waiting descriptor `x`) has a name distinct from every name the running
pass recorded. -/
theorem list_emission_w :
    ({ sid := "x", sname := "M", provider := "Q", status := "等待", next_run := some 3 } :
        ScheduleInfo).sname ∉
      (runningPass [("a", { running := true, name := some "N", plugin_name := some "P" }),
        ("x", { name := some "M", plugin_name := some "Q" })] []).1 :=
  (list_emission [("a", { running := true, name := some "N", plugin_name := some "P" }),
      ("x", { name := some "M", plugin_name := some "Q" })] [⟨"x|5", "M", 3⟩]).2.2
    { sid := "x", sname := "M", provider := "Q", status := "等待", next_run := some 3 }
    (by decide)

end MoviePilot
